import Mathlib

/-!
Verification of the Clement interpolation module (fenicstools,
`ClementInterpolation.py`) against its specification.

The module is embedded shallowly:

* A `Mesh` is its id, topological dimension, vertex count, the vertex set of
  each cell and each cell's volume (rationals stand for the exact real
  arithmetic of the collaborator's linear algebra).
* A UFL expression is kept opaque, as the code uses it: a flag telling whether
  it is a fully integrated `ufl.Form`, its traversable unique terminals, its
  `ufl_shape`, and the semantics the assembler gives it — for each flattened
  component `c`, `cellIntegral c j` is the assembled value of
  `inner(expr_c, q) * dx` on cell `j` (`q` the DG0 test function), i.e. the
  integral of the component over cell `j`.
* `assemble((1/K)*Constant(tdim+1)*inner(v, q)*dX)` with the degree-1 vertex
  quadrature scheme is embedded as the cellwise quadrature sum it evaluates
  to: the rule places one point at each vertex of the cell with equal weights
  summing to the cell volume, the CG1 basis function `v_i` is 1 at vertex `i`
  and 0 at every other vertex, and the DG0 basis `q_j` is 1 on cell `j`, so
  column `j` of the matrix receives contributions from cell `j` only.
* The Python class becomes a state record plus explicit state passing; wall
  clock readings, which the code obtains from `time.time()`, enter as
  parameters.  Python's `ValueError`s and the `ZeroDivisionError` a float
  division by zero raises become an error type returned through `Except`.
-/

/-- The kinds of UFL terminal operands the validator distinguishes: the
blacklist of `ClementInterpolant.black_listed` (`ufl.Argument`, edge lengths,
facet area/normal, cell normal/volume) plus ordinary constants (no function
space) and coefficients (finite element functions carrying a mesh). -/
inductive TerminalKind where
  | argument
  | maxCellEdgeLength
  | maxFacetEdgeLength
  | minCellEdgeLength
  | minFacetEdgeLength
  | facetArea
  | facetNormal
  | cellNormal
  | cellVolume
  | constant
  | coefficient
  deriving DecidableEq, Repr

/-- A finite element mesh: identity, topological dimension, number of
vertices, each cell as its set of vertex indices, and each cell's volume. -/
structure Mesh where
  id : Nat
  tdim : Nat
  nvertices : Nat
  cells : List (Finset Nat)
  volumes : List ℚ
  deriving DecidableEq

/-- A terminal operand: its kind and, when `t.function_space()` is defined
(finite element functions), the mesh of that space; `none` models the
`AttributeError` branch of `_extract_mesh`. -/
structure Terminal where
  kind : TerminalKind
  mesh? : Option Mesh
  deriving DecidableEq

/-- A UFL expression as the code consumes it: whether it is a fully integrated
`ufl.Form`, its unique terminals (as `traverse_unique_terminals` yields them),
its `ufl_shape`, and the assembly semantics of its flattened components:
`cellIntegral c j` is the integral of component `c` over cell `j`, the value
`assemble(inner(expr_c, q)*dx)` puts in entry `j` of the DG0 vector. -/
structure UFLExpr where
  isForm : Bool
  terminals : List Terminal
  shape : List Nat
  cellIntegral : List Nat → Nat → ℚ

/-- The errors the module can raise: the three `ValueError` sites of
`_analyze_expr`, `_analyze_shape` and `_extract_mesh`, and the
`ZeroDivisionError` of a Python float division by zero (`timings` with no
calls). -/
inductive CIError where
  | invalidExpression
  | unsupportedShape
  | ambiguousMesh
  | zeroDivision
  deriving DecidableEq, Repr

/-- `ClementInterpolant.black_listed`: terminal kinds that cannot be
interpolated (Arguments and quantities not well defined at a vertex). -/
def black_listed : TerminalKind → Bool
  | .argument => true
  | .maxCellEdgeLength => true
  | .maxFacetEdgeLength => true
  | .minCellEdgeLength => true
  | .minFacetEdgeLength => true
  | .facetArea => true
  | .facetNormal => true
  | .cellNormal => true
  | .cellVolume => true
  | .constant => false
  | .coefficient => false

/-- `_analyze_expr`: raise if the expression is a form, raise if any terminal
is black listed, otherwise return the terminals. -/
def analyze_expr (e : UFLExpr) : Except CIError (List Terminal) :=
  if e.isForm then .error .invalidExpression
  else if e.terminals.any (fun t => black_listed t.kind) then
    .error .invalidExpression
  else .ok e.terminals

/-- `_analyze_shape`: only scalars, rank-1 and square rank-2 shapes are
supported (`len(shape) < 3 and (shape[0] == shape[1] if len(shape) == 2 else
True)`). -/
def analyze_shape (shape : List Nat) : Except CIError Unit :=
  let is_valid := decide (shape.length < 3) &&
    (if shape.length = 2 then shape.getD 0 0 == shape.getD 1 0 else true)
  if is_valid then .ok () else .error .unsupportedShape

/-- `_extract_mesh`: collect `(mesh.id(), mesh)` for each terminal exposing a
function space, and return the (last) mesh when the set of ids is a
singleton; otherwise raise. -/
def extract_mesh (terminals : List Terminal) : Except CIError Mesh :=
  let pairs := terminals.filterMap (fun t => t.mesh?.map (fun m => (m.id, m)))
  let ids := (pairs.map Prod.fst).dedup
  if ids.length = 1 then
    match pairs.getLast? with
    | some p => .ok p.2
    | none => .error .ambiguousMesh
  else .error .ambiguousMesh

/-- A function space as the code builds them: `FunctionSpace(mesh, family,
degree)`. -/
structure FnSpace where
  mesh : Mesh
  family : String
  degree : Nat

/-- The degree-1 vertex quadrature rule on one cell: one point per vertex of
the cell, equal weights summing to the cell volume. -/
def vertexQuadrature (cell : Finset Nat) (K : ℚ) (f : Nat → ℚ) : ℚ :=
  ∑ p ∈ cell, (K / (cell.card : ℚ)) * f p

/-- `_construct_averaging_operator(V)`: the matrix
`assemble((1/K)*Constant(tdim+1)*inner(v, q)*dX)` with vertex quadrature of
degree 1, as a function of its entries.  Entry `(i, j)` receives the
quadrature sum over cell `j` of `(1/K) * (tdim+1) * v_i * q_j`: the CG1 basis
`v_i` evaluates at a vertex `p` of the cell to the indicator of `p = i`, and
the DG0 basis `q_j` is 1 on its own cell (cellwise assembly contributes to
column `j` from cell `j` only).  Entries outside the assembled columns are
zero.  As the source notes, this construction is specific to a degree-1
target space, whose basis is nodal exactly at the quadrature points. -/
def construct_averaging_operator (V : FnSpace) : Nat → Nat → ℚ :=
  fun i j =>
    let mesh := V.mesh
    if j < mesh.cells.length then
      vertexQuadrature (mesh.cells.getD j ∅) (mesh.volumes.getD j 0)
        (fun p => (1 / mesh.volumes.getD j 0) * ((mesh.tdim : ℚ) + 1) *
          (if p = i then 1 else 0))
    else 0

/-- `A.mult(x, y)`: sparse matrix-vector product, `y_i = Σ_j A_{ij} x_j` over
the `ncols` assembled columns. -/
def matMult (A : Nat → Nat → ℚ) (ncols : Nat) (x : Nat → ℚ) (i : Nat) : ℚ :=
  ∑ j ∈ Finset.range ncols, A i j * x j

/-- The patch of vertex `i`: the cells that contain `i`. -/
def patch (m : Mesh) (i : Nat) : Finset Nat :=
  (Finset.range m.cells.length).filter (fun j => i ∈ m.cells.getD j ∅)

/-- The independently computed patch volume of vertex `i`: the sum of the
volumes of the cells touching `i`. -/
def patchVolume (m : Mesh) (i : Nat) : ℚ :=
  ∑ j ∈ patch m i, m.volumes.getD j 0

/-- Every cell of the mesh is a simplex of the mesh's topological dimension:
it has exactly `tdim + 1` vertices. -/
def Mesh.SimplexCells (m : Mesh) : Prop :=
  ∀ j, j < m.cells.length → (m.cells.getD j ∅).card = m.tdim + 1

/-- A well-formed mesh: simplex cells and strictly positive cell volumes. -/
def Mesh.WF (m : Mesh) : Prop :=
  m.SimplexCells ∧ ∀ j, j < m.cells.length → 0 < m.volumes.getD j 0

/-- Pointwise reciprocal of one vector entry.  PETSc's `VecReciprocal` (the
`patch_volumes.vec().reciprocal()` call) leaves zero entries at zero, which
is also the value of `1 / 0` in `ℚ`. -/
def reciprocal (x : ℚ) : ℚ := 1 / x

/-- The component forms `inner(expr_c, q)*dx` built in `__init__`, each
carried by its assembly semantics (per-cell integrals): one form for a
scalar, `shape[0]` for rank 1, and `shape[0]*shape[1]` in row-major order
(`for i ... for j ...`) for rank 2. -/
def buildForms (e : UFLExpr) : List (Nat → ℚ) :=
  if e.shape.length = 0 then [e.cellIntegral []]
  else if e.shape.length = 1 then
    (List.range (e.shape.getD 0 0)).map (fun i => e.cellIntegral [i])
  else
    (List.range (e.shape.getD 0 0)).flatMap (fun i =>
      (List.range (e.shape.getD 1 0)).map (fun j => e.cellIntegral [i, j]))

/-- The state a `ClementInterpolant` instance carries: the fields collected
at the end of `__init__` (`shape, V, A, patch_volumes, forms`) and the three
private timing attributes. -/
structure ClementInterpolant where
  shape : List Nat
  V : FnSpace
  A : Nat → Nat → ℚ
  patch_volumes : List ℚ
  forms : List (Nat → ℚ)
  init_time : ℚ
  ncalls : ℚ
  total_call_time : ℚ

/-- The state `__init__` collects once the expression has been validated and
`mesh` extracted: the CG1 target space, the averaging operator, the
reciprocal patch volumes (`assemble(inner(Constant(1), q)*dx)` assembles the
per-cell volumes; `A.mult` maps them to per-vertex patch volumes; then the
pointwise reciprocal), the component forms, and zeroed call statistics. -/
def mkState (e : UFLExpr) (mesh : Mesh) (t0 : ℚ) : ClementInterpolant :=
  let V : FnSpace := { mesh := mesh, family := "CG", degree := 1 }
  let A := construct_averaging_operator V
  let volumes : Nat → ℚ := fun j => mesh.volumes.getD j 0
  let pv := ((List.range mesh.nvertices).map
    (fun i => matMult A mesh.cells.length volumes i)).map reciprocal
  { shape := e.shape, V := V, A := A, patch_volumes := pv,
    forms := buildForms e, init_time := t0, ncalls := 0, total_call_time := 0 }

/-- `ClementInterpolant.__init__(expr)`: validate the expression, its shape
and its mesh, then precompute the averaging operator, the reciprocal patch
volumes and the component forms.  `t0` is the construction wall time the code
measures with `time.time()`. -/
def ClementInterpolant.init (e : UFLExpr) (t0 : ℚ) :
    Except CIError ClementInterpolant :=
  match analyze_expr e with
  | .error err => .error err
  | .ok terminals =>
    match analyze_shape e.shape with
    | .error err => .error err
    | .ok _ =>
      match extract_mesh terminals with
      | .error err => .error err
      | .ok mesh => .ok (mkState e mesh t0)

/-- The interpolated field `__call__` returns: a CG1 `Function(V)` for a
scalar, a `VectorFunctionSpace(mesh, 'CG', 1, dim)` function for rank 1, a
`TensorFunctionSpace(mesh, 'CG', 1, shape)` function for rank 2, each holding
one value per vertex per component. -/
inductive FEFunction where
  | scalar (vals : List ℚ)
  | vector (dim : Nat) (comps : List (List ℚ))
  | tensor (shape : List Nat) (comps : List (List ℚ))

/-- One component of the interpolant: assemble the form into the per-cell
projection vector, apply the averaging operator
(`A.mult(projection, component.vector())`), and multiply elementwise by the
reciprocal patch volumes (`component.vector()[:] *= patch_volumes`). -/
def ClementInterpolant.component (s : ClementInterpolant) (p : Nat → ℚ) :
    List ℚ :=
  (List.range s.V.mesh.nvertices).map
    (fun i => matMult s.A s.V.mesh.cells.length p i * s.patch_volumes.getD i 0)

/-- `ClementInterpolant.__call__()`: build every component, then reassemble —
a scalar takes the single component (`components.pop()`), rank 1 a vector
function from the ordered components, rank 2 a tensor function.  The call
increments `__ncalls` and accumulates `__total_call_time` by the elapsed wall
time `dt`; the updated instance is returned alongside the field. -/
def ClementInterpolant.call (s : ClementInterpolant) (dt : ℚ) :
    FEFunction × ClementInterpolant :=
  let components := s.forms.map (fun p => s.component p)
  let uh : FEFunction :=
    if s.shape.length = 0 then FEFunction.scalar (components.getLastD [])
    else if s.shape.length = 1 then FEFunction.vector (s.shape.getD 0 0) components
    else FEFunction.tensor s.shape components
  (uh, { s with ncalls := s.ncalls + 1,
                total_call_time := s.total_call_time + dt })

/-- `ClementInterpolant.timings()`: report `(init_time, total_call_time /
ncalls)`.  Both counters are Python floats; with `ncalls` still `0.` the
division raises `ZeroDivisionError` before any reduction or printing (the MPI
allreduce and the report are collaborator-side diagnostics, not modelled). -/
def ClementInterpolant.timings (s : ClementInterpolant) :
    Except CIError (ℚ × ℚ) :=
  if s.ncalls = 0 then .error .zeroDivision
  else .ok (s.init_time, s.total_call_time / s.ncalls)

/-- `clement_interpolate(expr, with_CI=False)`: build an instance and call it.
The source line `return ci() if not with_CI else ci(), ci` groups as
`return ((ci() if not with_CI else ci()), ci)` — the conditional expression
binds tighter than the tuple comma — so the instance is paired with the field
for either value of `with_CI`, and the instance is called exactly once. -/
def clement_interpolate (e : UFLExpr) (with_CI : Bool) (t0 dt : ℚ) :
    Except CIError (FEFunction × ClementInterpolant) :=
  match ClementInterpolant.init e t0 with
  | .error err => .error err
  | .ok ci =>
    let r := if !with_CI then ci.call dt else ci.call dt
    .ok (r.1, r.2)

/-! Concrete instances used to evaluate the development: a one-dimensional
mesh of two unit-half cells, a constant scalar expression over it, and a
degenerate one-cell mesh of zero volume. -/

/-- A 1-d interval mesh: 3 vertices, 2 cells of volume 1/2. -/
def demoMesh : Mesh :=
  { id := 0, tdim := 1, nvertices := 3,
    cells := [{0, 1}, {1, 2}], volumes := [1/2, 1/2] }

/-- The constant scalar field 5 over `demoMesh`: a single coefficient
terminal, scalar shape, and component integrals `∫_cell 5 = 5 * |cell|`. -/
def demoExpr : UFLExpr :=
  { isForm := false,
    terminals := [{ kind := .coefficient, mesh? := some demoMesh }],
    shape := [],
    cellIntegral := fun _ j => 5 * demoMesh.volumes.getD j 0 }

/-- The state constructed from `demoExpr`. -/
def demoState : ClementInterpolant := mkState demoExpr demoMesh 0

/-- A degenerate mesh: one cell of volume exactly zero. -/
def degenMesh : Mesh :=
  { id := 1, tdim := 1, nvertices := 2, cells := [{0, 1}], volumes := [0] }

/-- A scalar expression over the degenerate mesh. -/
def degenExpr : UFLExpr :=
  { isForm := false,
    terminals := [{ kind := .coefficient, mesh? := some degenMesh }],
    shape := [],
    cellIntegral := fun _ _ => 0 }

/-- On a simplex cell of nonzero volume the assembled entry is the vertex-cell
incidence indicator: the quadrature weight `K/(tdim+1)` cancels the
`(1/K)*(tdim+1)` scaling exactly. -/
theorem avg_entry_incidence (V : FnSpace) (j : Nat)
    (hj : j < V.mesh.cells.length)
    (hcard : (V.mesh.cells.getD j ∅).card = V.mesh.tdim + 1)
    (hK : V.mesh.volumes.getD j 0 ≠ 0) (i : Nat) :
    construct_averaging_operator V i j =
      if i ∈ V.mesh.cells.getD j ∅ then 1 else 0 := by
  unfold construct_averaging_operator vertexQuadrature
  simp only [if_pos hj]
  set K := V.mesh.volumes.getD j 0 with hKdef
  have hd : ((V.mesh.cells.getD j ∅).card : ℚ) = (V.mesh.tdim : ℚ) + 1 := by
    rw [hcard]; push_cast; ring
  have hd0 : ((V.mesh.tdim : ℚ) + 1) ≠ 0 := by positivity
  have hterm : ∀ p ∈ V.mesh.cells.getD j ∅,
      K / ((V.mesh.cells.getD j ∅).card : ℚ) *
        (1 / K * ((V.mesh.tdim : ℚ) + 1) * (if p = i then 1 else 0)) =
      (if p = i then 1 else 0) := by
    intro p _
    by_cases hpi : p = i
    · simp only [hpi, if_pos rfl, mul_one, hd]
      field_simp
    · simp [hpi]
  rw [Finset.sum_congr rfl hterm, Finset.sum_ite_eq' (V.mesh.cells.getD j ∅) i
    (fun _ => (1 : ℚ))]

/-- Applying the operator to a per-cell vector sums the vector over each
vertex's patch: on positive-volume cells the entries are incidence
indicators. -/
theorem matMult_avg (V : FnSpace) (hS : V.mesh.SimplexCells)
    (hpos : ∀ j, j < V.mesh.cells.length → 0 < V.mesh.volumes.getD j 0)
    (x : Nat → ℚ) (i : Nat) :
    matMult (construct_averaging_operator V) V.mesh.cells.length x i =
      ∑ j ∈ patch V.mesh i, x j := by
  unfold matMult patch
  rw [Finset.sum_filter]
  refine Finset.sum_congr rfl ?_
  intro j hj
  have hj' := Finset.mem_range.mp hj
  rw [avg_entry_incidence V j hj' (hS j hj') (ne_of_gt (hpos j hj'))]
  by_cases h : i ∈ V.mesh.cells.getD j ∅
  · simp [h]
  · simp [h]

/-- Applied to the per-cell volume vector the operator computes the patch
volumes; a zero-volume cell multiplies its own zero volume on both sides, so
the value of its assembled entry is never consulted and only simplex cells
are needed. -/
theorem matMult_avg_volumes (V : FnSpace) (hS : V.mesh.SimplexCells)
    (i : Nat) :
    matMult (construct_averaging_operator V) V.mesh.cells.length
      (fun j => V.mesh.volumes.getD j 0) i = patchVolume V.mesh i := by
  unfold matMult patchVolume patch
  rw [Finset.sum_filter]
  refine Finset.sum_congr rfl ?_
  intro j hj
  have hj' := Finset.mem_range.mp hj
  by_cases hK : V.mesh.volumes.getD j 0 = 0
  · have hK2 : V.mesh.volumes[j]?.getD 0 = 0 := by
      rw [← List.getD_eq_getElem?_getD]
      exact hK
    simp [hK2]
  · rw [avg_entry_incidence V j hj' (hS j hj') hK]
    by_cases h : i ∈ V.mesh.cells.getD j ∅ <;> simp [h]

/-- Indexing a map over a range. -/
theorem getD_map_range {α : Type} (n : Nat) (f : Nat → α) (d : α) (i : Nat)
    (hi : i < n) : ((List.range n).map f).getD i d = f i := by
  rw [List.getD_eq_getElem?_getD, List.getElem?_map, List.getElem?_range hi]
  rfl

/-- The weight vector `mkState` stores is the pointwise reciprocal of the
operator applied to the per-cell volumes. -/
theorem mkState_patch_volumes_getD (e : UFLExpr) (mesh : Mesh) (t0 : ℚ)
    (i : Nat) (hi : i < mesh.nvertices) :
    (mkState e mesh t0).patch_volumes.getD i 0 =
      reciprocal (matMult (construct_averaging_operator
        { mesh := mesh, family := "CG", degree := 1 }) mesh.cells.length
        (fun j => mesh.volumes.getD j 0) i) := by
  show (((List.range mesh.nvertices).map _).map reciprocal).getD i 0 = _
  rw [List.map_map, getD_map_range _ _ _ i hi]
  rfl

/-- A successful `__init__` is exactly a passed validation followed by
`mkState` on the extracted mesh. -/
theorem init_ok (e : UFLExpr) (t0 : ℚ) (s : ClementInterpolant)
    (h : ClementInterpolant.init e t0 = .ok s) :
    ∃ mesh, extract_mesh e.terminals = .ok mesh ∧ s = mkState e mesh t0 := by
  unfold ClementInterpolant.init at h
  cases he : analyze_expr e with
  | error err => simp [he] at h
  | ok ts =>
    simp only [he] at h
    have hts : ts = e.terminals := by
      unfold analyze_expr at he
      by_cases h1 : e.isForm
      · rw [if_pos h1] at he; simp at he
      · rw [if_neg h1] at he
        by_cases h2 : e.terminals.any (fun t => black_listed t.kind)
        · rw [if_pos h2] at he; simp at he
        · rw [if_neg h2] at he
          injection he with h3
          exact h3.symm
    subst hts
    cases hsh : analyze_shape e.shape with
    | error err => simp [hsh] at h
    | ok u =>
      simp only [hsh] at h
      cases hm : extract_mesh e.terminals with
      | error err => simp [hm] at h
      | ok mesh =>
        simp only [hm] at h
        injection h with h4
        exact ⟨mesh, rfl, h4.symm⟩

/-- A nonempty patch of positive-volume cells has positive volume. -/
theorem patchVolume_pos (m : Mesh)
    (hpos : ∀ j, j < m.cells.length → 0 < m.volumes.getD j 0)
    (i : Nat) (hne : (patch m i).Nonempty) : 0 < patchVolume m i := by
  unfold patchVolume
  refine Finset.sum_pos ?_ hne
  intro j hj
  unfold patch at hj
  exact hpos j (Finset.mem_range.mp (Finset.mem_filter.mp hj).1)

/-- The demo mesh is well formed: both cells are 1-simplices of volume 1/2. -/
theorem demoMesh_WF : demoMesh.WF := by
  constructor
  · intro j hj
    match j with
    | 0 => rfl
    | 1 => rfl
    | n + 2 => simp [demoMesh] at hj
  · intro j hj
    match j with
    | 0 => norm_num [demoMesh]
    | 1 => norm_num [demoMesh]
    | n + 2 => simp [demoMesh] at hj

/-- The patch volume of demo vertex 0 (one boundary cell). -/
theorem demo_patchVolume_0 : patchVolume demoMesh 0 = 1/2 := by
  unfold patchVolume patch
  rw [Finset.sum_filter]
  norm_num [demoMesh, Finset.sum_range_succ]

/-- The patch volume of demo vertex 1 (both cells). -/
theorem demo_patchVolume_1 : patchVolume demoMesh 1 = 1 := by
  unfold patchVolume patch
  rw [Finset.sum_filter]
  norm_num [demoMesh, Finset.sum_range_succ]

/-- The patch volume of demo vertex 2 (one boundary cell). -/
theorem demo_patchVolume_2 : patchVolume demoMesh 2 = 1/2 := by
  unfold patchVolume patch
  rw [Finset.sum_filter]
  norm_num [demoMesh, Finset.sum_range_succ]

/-- The patch volume of vertex 0 of the degenerate mesh is zero. -/
theorem degen_patchVolume_0 : patchVolume degenMesh 0 = 0 := by
  unfold patchVolume patch
  rw [Finset.sum_filter]
  norm_num [degenMesh, Finset.sum_range_succ]

/-- C1: over the degree-1 target space the averaging operator is the
vertex-cell incidence matrix — entry `(i, j)` is 1 when cell `j` is in the
patch of vertex `i` and 0 otherwise — and applying it to the all-ones
per-cell vector yields at every vertex the cardinality of its patch. -/
theorem C1_averaging_operator_incidence (m : Mesh) (hwf : m.WF) :
    (∀ i j, j < m.cells.length →
        construct_averaging_operator
          { mesh := m, family := "CG", degree := 1 } i j =
          if i ∈ m.cells.getD j ∅ then 1 else 0) ∧
    (∀ i, matMult (construct_averaging_operator
        { mesh := m, family := "CG", degree := 1 }) m.cells.length
        (fun _ => 1) i = ((patch m i).card : ℚ)) := by
  obtain ⟨hS, hpos⟩ := hwf
  constructor
  · intro i j hj
    exact avg_entry_incidence _ j hj (hS j hj) (ne_of_gt (hpos j hj)) i
  · intro i
    rw [matMult_avg _ hS hpos]
    simp

/-- C1 witness: on the two-cell demo mesh, the operator applied to the
all-ones vector gives at vertex 1 its patch cardinality. -/
theorem C1_averaging_operator_incidence_witness :
    matMult (construct_averaging_operator
      { mesh := demoMesh, family := "CG", degree := 1 }) demoMesh.cells.length
      (fun _ => 1) 1 = ((patch demoMesh 1).card : ℚ) :=
  (C1_averaging_operator_incidence demoMesh demoMesh_WF).2 1

/-- C4 counterexample: on the degenerate one-cell mesh of zero volume the
patch volume of vertex 0 is exactly zero, yet construction completes and
returns an engine state; no error is raised. -/
theorem C4_construction_completes_counterexample :
    patchVolume degenMesh 0 = 0 ∧
    ClementInterpolant.init degenExpr 0 = .ok (mkState degenExpr degenMesh 0) :=
  ⟨degen_patchVolume_0, rfl⟩

/-- C4 (amended): construction never inspects the patch volumes. Whenever the
expression, shape and mesh validation succeed, `__init__` completes and
returns an engine state carrying a weight vector, even when a vertex patch
has total volume exactly zero: no `SingularPatchError`, and no zero-volume
check of any kind, exists in the code.  What number the reciprocal step then
stores for the degenerate vertex is floating-point behavior (the assembled
entry involves `(1/K)` with `K = 0`, giving non-finite values) outside this
exact-arithmetic model, and is deliberately not asserted here. -/
theorem C4_construction_ignores_patch_volumes (e : UFLExpr) (t0 : ℚ)
    (mesh : Mesh)
    (hexpr : analyze_expr e = .ok e.terminals)
    (hshape : analyze_shape e.shape = .ok ())
    (hmesh : extract_mesh e.terminals = .ok mesh) :
    ClementInterpolant.init e t0 = .ok (mkState e mesh t0) := by
  unfold ClementInterpolant.init
  simp only [hexpr, hshape, hmesh]

/-- C4 witness: the degenerate expression passes validation, so construction
completes on the zero-volume mesh. -/
theorem C4_construction_ignores_patch_volumes_witness :
    ClementInterpolant.init degenExpr 0 = .ok (mkState degenExpr degenMesh 0) :=
  C4_construction_ignores_patch_volumes degenExpr 0 degenMesh rfl rfl rfl

/-- C5: for every vertex of a mesh whose patch volumes are all strictly
positive, the stored reciprocal weight times the independently computed
patch volume is exactly 1. -/
theorem C5_reciprocal_weights (e : UFLExpr) (t0 : ℚ) (s : ClementInterpolant)
    (hinit : ClementInterpolant.init e t0 = .ok s)
    (hS : s.V.mesh.SimplexCells)
    (hpos : ∀ i, i < s.V.mesh.nvertices → 0 < patchVolume s.V.mesh i) :
    ∀ i, i < s.V.mesh.nvertices →
      s.patch_volumes.getD i 0 * patchVolume s.V.mesh i = 1 := by
  obtain ⟨mesh, hm, rfl⟩ := init_ok e t0 s hinit
  intro i hi
  rw [mkState_patch_volumes_getD e mesh t0 i hi]
  have hv : matMult (construct_averaging_operator
      { mesh := mesh, family := "CG", degree := 1 }) mesh.cells.length
      (fun j => mesh.volumes.getD j 0) i = patchVolume mesh i :=
    matMult_avg_volumes { mesh := mesh, family := "CG", degree := 1 } hS i
  rw [hv]
  show (1 / patchVolume mesh i) * patchVolume mesh i = 1
  have hne : patchVolume mesh i ≠ 0 := ne_of_gt (hpos i hi)
  rw [one_div, inv_mul_cancel₀ hne]

/-- C5 witness: at vertex 1 of the demo mesh the weight times the patch
volume is 1. -/
theorem C5_reciprocal_weights_witness :
    demoState.patch_volumes.getD 1 0 * patchVolume demoState.V.mesh 1 = 1 :=
  C5_reciprocal_weights demoExpr 0 demoState rfl demoMesh_WF.1
    (by intro i hi
        have hi3 : i < 3 := hi
        show 0 < patchVolume demoMesh i
        interval_cases i
        · rw [demo_patchVolume_0]; norm_num
        · rw [demo_patchVolume_1]; norm_num
        · rw [demo_patchVolume_2]; norm_num)
    1 (by decide)

/-- C2: the Clement interpolant of the constant scalar field `k` — an
expression whose component integral over each cell is `k` times the cell
volume — is the constant field `k` at every vertex. -/
theorem C2_exact_on_constants (e : UFLExpr) (k : ℚ) (t0 dt : ℚ)
    (s : ClementInterpolant)
    (hinit : ClementInterpolant.init e t0 = .ok s)
    (hshape : e.shape = [])
    (hwf : s.V.mesh.WF)
    (hcover : ∀ i, i < s.V.mesh.nvertices → (patch s.V.mesh i).Nonempty)
    (hconst : ∀ j, j < s.V.mesh.cells.length →
      e.cellIntegral [] j = k * s.V.mesh.volumes.getD j 0) :
    (s.call dt).1 = FEFunction.scalar (List.replicate s.V.mesh.nvertices k) := by
  obtain ⟨mesh, hm, rfl⟩ := init_ok e t0 s hinit
  obtain ⟨hS, hpos⟩ := hwf
  have hforms : (mkState e mesh t0).forms = [e.cellIntegral []] := by
    show buildForms e = _
    unfold buildForms
    rw [hshape]
    simp
  have hcomp : (mkState e mesh t0).component (e.cellIntegral []) =
      List.replicate mesh.nvertices k := by
    rw [List.eq_replicate_iff]
    constructor
    · unfold ClementInterpolant.component
      rw [List.length_map, List.length_range]
      rfl
    · intro b hb
      unfold ClementInterpolant.component at hb
      simp only [List.mem_map, List.mem_range] at hb
      obtain ⟨i, hi, rfl⟩ := hb
      rw [mkState_patch_volumes_getD e mesh t0 i hi]
      have hsum : matMult (construct_averaging_operator
          { mesh := mesh, family := "CG", degree := 1 }) mesh.cells.length
          (e.cellIntegral []) i = k * patchVolume mesh i := by
        rw [matMult_avg { mesh := mesh, family := "CG", degree := 1 } hS hpos
          (e.cellIntegral []) i]
        show (∑ j ∈ patch mesh i, e.cellIntegral [] j) = k * patchVolume mesh i
        unfold patchVolume
        rw [Finset.mul_sum]
        refine Finset.sum_congr rfl ?_
        intro j hj
        have hjlt : j < mesh.cells.length := by
          unfold patch at hj
          exact Finset.mem_range.mp (Finset.mem_filter.mp hj).1
        exact hconst j hjlt
      have hv : matMult (construct_averaging_operator
          { mesh := mesh, family := "CG", degree := 1 }) mesh.cells.length
          (fun j => mesh.volumes.getD j 0) i = patchVolume mesh i :=
        matMult_avg_volumes { mesh := mesh, family := "CG", degree := 1 } hS i
      have hne : patchVolume mesh i ≠ 0 :=
        ne_of_gt (patchVolume_pos mesh hpos i (hcover i hi))
      show matMult (construct_averaging_operator
          { mesh := mesh, family := "CG", degree := 1 }) mesh.cells.length
          (e.cellIntegral []) i *
        reciprocal (matMult (construct_averaging_operator
          { mesh := mesh, family := "CG", degree := 1 }) mesh.cells.length
          (fun j => mesh.volumes.getD j 0) i) = k
      rw [hsum, hv]
      unfold reciprocal
      rw [one_div, mul_assoc, mul_inv_cancel₀ hne, mul_one]
  show (ClementInterpolant.call (mkState e mesh t0) dt).1 = _
  unfold ClementInterpolant.call
  have hlen : (mkState e mesh t0).shape.length = 0 := by
    show e.shape.length = 0
    rw [hshape]
    rfl
  simp only [hlen, if_pos, hforms, List.map_cons, List.map_nil]
  show FEFunction.scalar ([(mkState e mesh t0).component (e.cellIntegral [])].getLastD []) = _
  rw [hcomp]
  rfl

/-- C2 witness: interpolating the constant field 5 over the demo mesh gives
the constant 5 at all three vertices. -/
theorem C2_exact_on_constants_witness :
    (demoState.call 0).1 =
      FEFunction.scalar (List.replicate demoState.V.mesh.nvertices 5) :=
  C2_exact_on_constants demoExpr 5 0 0 demoState rfl rfl demoMesh_WF
    (by intro i hi
        have hi3 : i < 3 := hi
        show (patch demoMesh i).Nonempty
        interval_cases i <;> decide)
    (fun j _ => rfl)

/-- C3: the `with_CI` flag of `clement_interpolate` has no effect on the
returned value — the source line `return ci() if not with_CI else ci(), ci`
always builds the pair `(field, instance)` because the conditional expression
binds tighter than the tuple comma — and on the demo expression the call with
`with_CI=False` indeed returns the pair, with the instance invoked exactly
once. -/
theorem C3_with_CI_flag_has_no_effect :
    (∀ (e : UFLExpr) (b : Bool) (t0 dt : ℚ),
        clement_interpolate e b t0 dt = clement_interpolate e false t0 dt) ∧
    clement_interpolate demoExpr false 0 0 = .ok (demoState.call 0) ∧
    ((demoState.call 0).2).ncalls = 1 := by
  refine ⟨?_, rfl, ?_⟩
  · intro e b t0 dt
    unfold clement_interpolate
    cases b <;> rfl
  · show (0 : ℚ) + 1 = 1
    norm_num

/-- C9: a call changes nothing in the fixed setup state — shape, target
space, averaging operator, weight vector, forms and construction time are
those of the input state — and the only mutations are the incremented call
counter and the accumulated call time. -/
theorem C9_call_frame (s : ClementInterpolant) (dt : ℚ) :
    ((s.call dt).2).shape = s.shape ∧
    ((s.call dt).2).V = s.V ∧
    ((s.call dt).2).A = s.A ∧
    ((s.call dt).2).patch_volumes = s.patch_volumes ∧
    ((s.call dt).2).forms = s.forms ∧
    ((s.call dt).2).init_time = s.init_time ∧
    ((s.call dt).2).ncalls = s.ncalls + 1 ∧
    ((s.call dt).2).total_call_time = s.total_call_time + dt :=
  ⟨rfl, rfl, rfl, rfl, rfl, rfl, rfl, rfl⟩

/-- C10: on a freshly constructed engine the call counter is zero and
`timings()` divides the accumulated time by it, failing with the
division-by-zero error; after an invocation the division is well defined and
`timings()` returns normally. -/
theorem C10_timings_division_by_zero (e : UFLExpr) (t0 : ℚ)
    (s : ClementInterpolant)
    (hinit : ClementInterpolant.init e t0 = .ok s) :
    s.ncalls = 0 ∧
    s.timings = .error .zeroDivision ∧
    (∀ dt, (((s.call dt).2).timings).isOk = true) ∧
    (∀ s' : ClementInterpolant, s'.ncalls = 0 →
      s'.timings = .error .zeroDivision) := by
  obtain ⟨mesh, hm, rfl⟩ := init_ok e t0 s hinit
  refine ⟨rfl, ?_, ?_, ?_⟩
  · unfold ClementInterpolant.timings
    rw [if_pos]
    rfl
  · intro dt
    unfold ClementInterpolant.timings
    rw [if_neg]
    · rfl
    · show ¬((0 : ℚ) + 1 = 0)
      norm_num
  · intro s' h0
    unfold ClementInterpolant.timings
    rw [if_pos h0]

/-- C10 witness: `timings()` on the freshly built demo engine fails with the
division-by-zero error. -/
theorem C10_timings_division_by_zero_witness :
    demoState.timings = .error .zeroDivision :=
  (C10_timings_division_by_zero demoExpr 0 demoState rfl).2.1

/-- A terminal kind is black listed exactly when it is a trial/test argument
or one of the vertex-undefined geometric quantities. -/
theorem black_listed_iff (t : Terminal) :
    black_listed t.kind = true ↔ t.kind ∈
      [TerminalKind.argument, .maxCellEdgeLength, .maxFacetEdgeLength,
       .minCellEdgeLength, .minFacetEdgeLength, .facetArea, .facetNormal,
       .cellNormal, .cellVolume] := by
  cases hk : t.kind <;> simp [black_listed]

/-- C7: expression validation fails with the invalid-expression error exactly
when the input is a fully integrated form or some terminal is a trial/test
argument or a vertex-undefined geometric quantity (edge lengths, facet
area/normal, cell normal/volume); every expression free of these passes
validation and the terminals are returned. -/
theorem C7_expression_validation (e : UFLExpr) :
    (analyze_expr e = .error .invalidExpression ↔
      e.isForm = true ∨ ∃ t ∈ e.terminals, t.kind ∈
        [TerminalKind.argument, .maxCellEdgeLength, .maxFacetEdgeLength,
         .minCellEdgeLength, .minFacetEdgeLength, .facetArea, .facetNormal,
         .cellNormal, .cellVolume]) ∧
    (¬(e.isForm = true ∨ ∃ t ∈ e.terminals, t.kind ∈
        [TerminalKind.argument, .maxCellEdgeLength, .maxFacetEdgeLength,
         .minCellEdgeLength, .minFacetEdgeLength, .facetArea, .facetNormal,
         .cellNormal, .cellVolume]) →
      analyze_expr e = .ok e.terminals) := by
  constructor
  · constructor
    · intro h
      by_cases h1 : e.isForm
      · exact Or.inl h1
      · right
        unfold analyze_expr at h
        rw [if_neg h1] at h
        by_cases h2 : e.terminals.any (fun t => black_listed t.kind)
        · obtain ⟨t, ht, hbt⟩ := List.any_eq_true.mp h2
          exact ⟨t, ht, (black_listed_iff t).mp hbt⟩
        · rw [if_neg h2] at h
          simp at h
    · intro h
      unfold analyze_expr
      rcases h with h1 | ⟨t, ht, hk⟩
      · rw [if_pos h1]
      · by_cases h1 : e.isForm
        · rw [if_pos h1]
        · rw [if_neg h1, if_pos]
          exact List.any_eq_true.mpr ⟨t, ht, (black_listed_iff t).mpr hk⟩
  · intro h
    rw [not_or] at h
    obtain ⟨h1, h2⟩ := h
    unfold analyze_expr
    rw [if_neg h1, if_neg]
    intro hany
    obtain ⟨t, ht, hbt⟩ := List.any_eq_true.mp hany
    exact h2 ⟨t, ht, (black_listed_iff t).mp hbt⟩

/-- C8: the shape check fails with the unsupported-shape error exactly on
shapes of rank above 2 and on non-square rank-2 shapes; `[2, 3]` is
rejected, while the scalar shape, every rank-1 shape and every square rank-2
shape are accepted. -/
theorem C8_shape_validation :
    (∀ shape : List Nat, analyze_shape shape = .error .unsupportedShape ↔
      ¬(match shape with
        | [a, b] => a = b
        | _ => shape.length ≤ 2)) ∧
    analyze_shape [2, 3] = .error .unsupportedShape ∧
    analyze_shape [] = .ok () ∧
    (∀ n, analyze_shape [n] = .ok ()) ∧
    (∀ n, analyze_shape [n, n] = .ok ()) := by
  refine ⟨?_, rfl, rfl, fun n => rfl, fun n => ?_⟩
  · intro shape
    match shape with
    | [] => simp [analyze_shape]
    | [a] => simp [analyze_shape]
    | [a, b] =>
      unfold analyze_shape
      by_cases hab : a = b
      · subst hab
        simp
      · simp [hab]
    | a :: b :: c :: rest =>
      have hfalse : ¬((decide ((a :: b :: c :: rest).length < 3) &&
          (if (a :: b :: c :: rest).length = 2 then
            (a :: b :: c :: rest).getD 0 0 == (a :: b :: c :: rest).getD 1 0
           else true)) = true) := by
        intro h
        have h1 := ((Bool.and_eq_true _ _).mp h).1
        rw [decide_eq_true_eq] at h1
        simp only [List.length_cons] at h1
        omega
      constructor
      · intro _
        simp only [List.length_cons]
        omega
      · intro _
        unfold analyze_shape
        rw [if_neg hfalse]
  · unfold analyze_shape
    simp

/-- The flattened component list of an `n × m` family has `n * m` entries. -/
theorem length_flatMap_range_map {α : Type} (n m : Nat) (f : Nat → Nat → α) :
    ((List.range n).flatMap (fun i => (List.range m).map (f i))).length =
      n * m := by
  induction n with
  | zero => simp
  | succ n ih =>
    rw [List.range_succ, List.flatMap_append, List.length_append, ih]
    simp [Nat.succ_mul]

/-- Entry `i * m + j` of the flattened component list is component `(i, j)`:
the flattening is row-major. -/
theorem getD_flatMap_range_map {α : Type} (n m : Nat) (f : Nat → Nat → α)
    (d : α) (i j : Nat) (hi : i < n) (hj : j < m) :
    ((List.range n).flatMap (fun i => (List.range m).map (f i))).getD
      (i * m + j) d = f i j := by
  induction n with
  | zero => omega
  | succ n ih =>
    rw [List.range_succ, List.flatMap_append]
    by_cases hin : i < n
    · rw [List.getD_append]
      · exact ih hin
      · rw [length_flatMap_range_map]
        have h1 : i + 1 ≤ n := hin
        calc i * m + j < i * m + m := by omega
          _ = (i + 1) * m := by ring
          _ ≤ n * m := Nat.mul_le_mul_right m h1
    · have hieq : i = n := by omega
      subst hieq
      rw [List.getD_append_right]
      · rw [length_flatMap_range_map, Nat.add_sub_cancel_left]
        simp only [List.flatMap_cons, List.flatMap_nil, List.append_nil]
        exact getD_map_range m (f i) d j hj
      · rw [length_flatMap_range_map]
        omega

/-- The field a call returns, written as the reassembly dispatch on the
rank: the let-bound pipeline of `call` projected to its first component. -/
theorem call_fst (s : ClementInterpolant) (dt : ℚ) :
    (s.call dt).1 =
      if s.shape.length = 0 then
        FEFunction.scalar ((s.forms.map (fun p => s.component p)).getLastD [])
      else if s.shape.length = 1 then
        FEFunction.vector (s.shape.getD 0 0)
          (s.forms.map (fun p => s.component p))
      else FEFunction.tensor s.shape
        (s.forms.map (fun p => s.component p)) := rfl

/-- C6: the engine decomposes the expression into exactly 1, `n`, or `n * n`
scalar component forms according to its rank, and reassembles the call
result as the single scalar component, an ordered rank-1 vector field, or a
square rank-2 tensor field whose components come in row-major order. -/
theorem C6_component_decomposition (e : UFLExpr) (t0 dt : ℚ)
    (s : ClementInterpolant)
    (hinit : ClementInterpolant.init e t0 = .ok s) :
    (e.shape = [] →
      s.forms.length = 1 ∧
      (s.call dt).1 = FEFunction.scalar (s.component (e.cellIntegral []))) ∧
    (∀ n, e.shape = [n] →
      s.forms.length = n ∧
      (s.call dt).1 = FEFunction.vector n
        ((List.range n).map (fun i => s.component (e.cellIntegral [i])))) ∧
    (∀ n, e.shape = [n, n] →
      s.forms.length = n * n ∧
      (∀ i j, i < n → j < n →
        s.forms.getD (i * n + j) (fun _ => 0) = e.cellIntegral [i, j]) ∧
      (s.call dt).1 = FEFunction.tensor [n, n]
        ((List.range n).flatMap (fun i =>
          (List.range n).map (fun j => s.component (e.cellIntegral [i, j]))))) := by
  obtain ⟨mesh, hm, rfl⟩ := init_ok e t0 s hinit
  refine ⟨?_, ?_, ?_⟩
  · intro hshape
    have hforms : (mkState e mesh t0).forms = [e.cellIntegral []] := by
      show buildForms e = _
      unfold buildForms
      rw [hshape]
      simp
    have hlen : (mkState e mesh t0).shape.length = 0 := by
      show e.shape.length = 0
      rw [hshape]
      rfl
    constructor
    · rw [hforms]
      rfl
    · unfold ClementInterpolant.call
      simp only [hlen, if_pos, hforms, List.map_cons, List.map_nil]
      rfl
  · intro n hshape
    have hforms : (mkState e mesh t0).forms =
        (List.range n).map (fun i => e.cellIntegral [i]) := by
      show buildForms e = _
      unfold buildForms
      rw [hshape]
      simp
    have hlen1 : (mkState e mesh t0).shape.length = 1 := by
      show e.shape.length = 1
      rw [hshape]
      rfl
    constructor
    · rw [hforms]
      simp
    · rw [call_fst]
      rw [if_neg (by rw [hlen1]; omega), if_pos hlen1]
      have hd : (mkState e mesh t0).shape.getD 0 0 = n := by
        show e.shape.getD 0 0 = n
        rw [hshape]
        rfl
      rw [hd, hforms, List.map_map]
      rfl
  · intro n hshape
    have hforms : (mkState e mesh t0).forms =
        (List.range n).flatMap (fun i =>
          (List.range n).map (fun j => e.cellIntegral [i, j])) := by
      show buildForms e = _
      unfold buildForms
      rw [hshape]
      simp
    have hlen2 : (mkState e mesh t0).shape.length = 2 := by
      show e.shape.length = 2
      rw [hshape]
      rfl
    refine ⟨?_, ?_, ?_⟩
    · rw [hforms, length_flatMap_range_map]
    · intro i j hi hj
      rw [hforms]
      exact getD_flatMap_range_map n n _ _ i j hi hj
    · rw [call_fst]
      rw [if_neg (by rw [hlen2]; omega), if_neg (by rw [hlen2]; omega)]
      have hsh : (mkState e mesh t0).shape = [n, n] := hshape
      rw [hsh, hforms, List.map_flatMap]
      simp only [List.map_map]
      rfl

/-- C6 witness: the demo scalar expression decomposes into exactly one
component form and reassembles as the scalar component itself. -/
theorem C6_component_decomposition_witness :
    demoState.forms.length = 1 ∧
    (demoState.call 0).1 =
      FEFunction.scalar (demoState.component (demoExpr.cellIntegral [])) :=
  (C6_component_decomposition demoExpr 0 0 demoState rfl).1 rfl
